import Mathlib

/-!
Shallow embedding of `src/blogs.rs` (the blog discovery/loading pipeline of a
static-site generator).

Paths are modelled as lists of components (`Path := List String`), matching
`std::path::Path` semantics for `join`, `strip_prefix` and `file_name`.
The filesystem is modelled as a tree of entries (`FsEntry`): regular files
carrying their text, directories carrying their listing in `read_dir` order,
plus failure nodes for entries whose `metadata()` call fails (`broken`),
directories whose `read_dir` fails (`dirUnreadable`), and entries that are
neither regular files nor directories (`special`).

Rust `Result` values become `Except LoadError`.  The one place the Rust code
can panic — `posts[0].show_year = true` on an empty `posts` vector in
`Blog::load` — is modelled as the distinguished error `LoadError.panicIndex`:
a panic aborts the load without producing a `Blog`, exactly like an `Err`
propagated to the top level, and the distinct constructor keeps the two
failure modes separate in the model.
-/

/-- Components of a filesystem path, root-relative.  `std::path::PathBuf`. -/
abbrev FsPath := List String

/-- `static MANIFEST_FILE: &str = "blog.yml";` -/
def MANIFEST_FILE : String := "blog.yml"

/-- `static POSTS_EXT: &str = "md";` -/
def POSTS_EXT : String := "md"

/-- The ways a load can fail (or panic).  The Rust code uses `Box<dyn Error>`;
we only need to distinguish the sources. -/
inductive LoadError where
  /-- any filesystem error: `read_to_string`, `read_dir`, `entry?`, `metadata()?` -/
  | ioError
  /-- `serde_yaml::from_str` syntax-level failure (text is not a YAML mapping) -/
  | yamlError
  /-- serde schema failure: missing, duplicate, unknown or mistyped field -/
  | schemaError
  /-- error propagated from `Post::open` -/
  | postError
  /-- the index-out-of-bounds panic at `posts[0].show_year = true` on zero posts -/
  | panicIndex
deriving DecidableEq, Repr

/-- The relevant shape of a post (`crate::posts::Post`): `url` is the sort key,
`year` drives the show-year grouping, `show_year` is overwritten by
`Blog::load` after sorting. -/
structure Post where
  url : String
  year : Int
  show_year : Bool
deriving DecidableEq, Repr

/-- A YAML value as seen by serde when deserializing a `Manifest` field:
a string scalar, a boolean scalar, or anything else (number, null, sequence,
mapping, ... — every such value fails both the `String` and the `bool`
visitor). -/
inductive MValue where
  | str (s : String)
  | bool (b : Bool)
  | other
deriving DecidableEq, Repr

deriving instance DecidableEq for Except

/-- The text of a regular file, abstracted by its two observable parses. -/
structure FileText where
  /-- What `serde_yaml::from_str` sees at the syntax level: either a YAML
  mapping given as a key/value list in document order, or a syntax error. -/
  asManifestDoc : Except Unit (List (String × MValue))
  /-- Modelled from the spec: `Post::open(path, manifest)` lives in
  `src/posts.rs`, which is outside the covered core.  Per the spec the Post
  Loader parses one content file into a `Post` (fields `url`, `year`; the
  spec's §3 says `requires-team` is consumed by a downstream out-of-scope
  authorization layer), so its outcome is a function of the file alone and is
  recorded here with the file. -/
  asPost : Except Unit Post
deriving DecidableEq, Repr

/-- One entry of a directory listing. -/
inductive FsEntry where
  /-- a regular file -/
  | file (name : String) (text : FileText)
  /-- a readable subdirectory with its own listing, in `read_dir` order -/
  | dir (name : String) (entries : List FsEntry)
  /-- a directory whose own `read_dir` fails (e.g. permission denied) -/
  | dirUnreadable (name : String)
  /-- an entry whose `metadata()` call fails -/
  | broken (name : String)
  /-- an entry that is neither a regular file nor a directory (fifo, socket, ...) -/
  | special (name : String)
deriving Repr

/-- `Path::extension` of a file name, as Rust computes it: the portion after
the last `.`, or `None` when there is no `.` or the only `.` is leading. -/
def rustExtension (name : String) : Option String :=
  let r := name.toList.reverse
  let ext := r.takeWhile (fun c => c ≠ '.')
  match r.dropWhile (fun c => c ≠ '.') with
  | [] => none
  | [_] => none
  | _ => some (String.mk ext.reverse)

/-- `#[derive(Deserialize)] #[serde(rename_all = "kebab-case", deny_unknown_fields)]
struct Manifest` -/
structure Manifest where
  title : String
  index_title : String
  description : String
  maintained_by : String
  requires_team : Bool
deriving DecidableEq, Repr

/-- End of the serde map visit: succeed when every field slot was filled,
otherwise report the missing field. -/
def parseFinish (t it d mb : Option String) (rt : Option Bool) :
    Except LoadError Manifest :=
  match t, it, d, mb, rt with
  | some t, some it, some d, some mb, some rt =>
      .ok { title := t, index_title := it, description := d,
            maintained_by := mb, requires_team := rt }
  | _, _, _, _, _ => .error .schemaError

/-- One entry of the serde map visit: fill the slot named by `k` with the
value `v`, failing on a duplicate (slot already filled), a wrong value kind,
or an unknown key. -/
def parseStep (k : String) (v : MValue) (t it d mb : Option String)
    (rt : Option Bool) :
    Except LoadError
      (Option String × Option String × Option String × Option String × Option Bool) :=
  if k = "title" then
    match t, v with
    | none, .str s => .ok (some s, it, d, mb, rt)
    | _, _ => .error .schemaError
  else if k = "index-title" then
    match it, v with
    | none, .str s => .ok (t, some s, d, mb, rt)
    | _, _ => .error .schemaError
  else if k = "description" then
    match d, v with
    | none, .str s => .ok (t, it, some s, mb, rt)
    | _, _ => .error .schemaError
  else if k = "maintained-by" then
    match mb, v with
    | none, .str s => .ok (t, it, d, some s, rt)
    | _, _ => .error .schemaError
  else if k = "requires-team" then
    match rt, v with
    | none, .bool b => .ok (t, it, d, mb, some b)
    | _, _ => .error .schemaError
  else .error .schemaError

/-- The serde-derived map visitor for `Manifest`: walk the mapping's entries in
order, filling one slot per field; a duplicate, unknown, or mistyped field is
an immediate error, and a missing field is an error at the end. -/
def parseGo : List (String × MValue) → Option String → Option String →
    Option String → Option String → Option Bool → Except LoadError Manifest
  | [], t, it, d, mb, rt => parseFinish t it d mb rt
  | (k, v) :: rest, t, it, d, mb, rt =>
      match parseStep k v t it d mb rt with
      | .error e => .error e
      | .ok (t2, it2, d2, mb2, rt2) => parseGo rest t2 it2 d2 mb2 rt2

/-- `serde_yaml::from_str::<Manifest>` applied to an already
syntax-checked mapping. -/
def Manifest.parse (doc : List (String × MValue)) : Except LoadError Manifest :=
  parseGo doc none none none none none

/-- `std::fs::read_to_string(dir.join(name))`: look the name up among the
direct entries; reading a directory, an inaccessible entry, or a missing name
is an I/O error. -/
def readFileNamed (name : String) : List FsEntry → Except LoadError FileText
  | [] => .error .ioError
  | .file n t :: rest => if n = name then .ok t else readFileNamed name rest
  | .dir n _ :: rest => if n = name then .error .ioError else readFileNamed name rest
  | .dirUnreadable n :: rest => if n = name then .error .ioError else readFileNamed name rest
  | .broken n :: rest => if n = name then .error .ioError else readFileNamed name rest
  | .special n :: rest => if n = name then .error .ioError else readFileNamed name rest

/-- The post-collection loop of `Blog::load`: for each direct entry, query its
metadata (failure aborts), then keep it only when it is a regular file whose
extension is `md`, in which case `Post::open`'s outcome is consulted. -/
def collectPosts : List FsEntry → Except LoadError (List Post)
  | [] => .ok []
  | .broken _ :: _ => .error .ioError
  | .file n t :: rest =>
      if rustExtension n = some POSTS_EXT then
        match t.asPost with
        | .error _ => .error .postError
        | .ok p =>
            match collectPosts rest with
            | .error e => .error e
            | .ok ps => .ok (p :: ps)
      else collectPosts rest
  | .dir _ _ :: rest => collectPosts rest
  | .dirUnreadable _ :: rest => collectPosts rest
  | .special _ :: rest => collectPosts rest

/-- The comparison `sort_by_key(|post| post.url.clone())` sorts with. -/
def postLeUrl (a b : Post) : Bool := decide (a.url ≤ b.url)

/-- `posts.sort_by_key(|post| post.url.clone()); posts.reverse();` —
stable ascending sort by `url`, then reversal. -/
def sortPostsDescending (posts : List Post) : List Post :=
  (posts.mergeSort postLeUrl).reverse

/-- The body of the `for i in 1..posts.len()` loop:
`posts[i].show_year = posts[i - 1].year != posts[i].year;` (the predecessor's
`year` is never mutated, so carrying it suffices). -/
def showYearRest (prevYear : Int) : List Post → List Post
  | [] => []
  | p :: rest => { p with show_year := prevYear != p.year } :: showYearRest p.year rest

/-- `struct Blog` (the `prefix` field is called `pfx` here because `prefix`
is a Lean keyword). -/
structure Blog where
  title : String
  index_title : String
  description : String
  maintained_by : String
  pfx : FsPath
  posts : List Post
deriving DecidableEq, Repr

/-- `Blog::load(prefix, dir)`, with `dir` given by its listing.  Reads and
parses the manifest, collects the `md` posts, sorts descending by url, then
runs the show-year pass — which panics (`panicIndex`) when there are no
posts. -/
def Blog.load (pfx : FsPath) (entries : List FsEntry) : Except LoadError Blog :=
  match readFileNamed MANIFEST_FILE entries with
  | .error e => .error e
  | .ok txt =>
    match txt.asManifestDoc with
    | .error _ => .error .yamlError
    | .ok doc =>
      match Manifest.parse doc with
      | .error e => .error e
      | .ok manifest =>
        match collectPosts entries with
        | .error e => .error e
        | .ok posts =>
          match sortPostsDescending posts with
          | [] => .error .panicIndex
          | p :: rest =>
              .ok { title := manifest.title, index_title := manifest.index_title,
                    description := manifest.description,
                    maintained_by := manifest.maintained_by, pfx := pfx,
                    posts := { p with show_year := true } :: showYearRest p.year rest }

/-- The prefix computation of `load_recursive`:
`parent.strip_prefix(base).map(|p| p.to_path_buf()).unwrap_or_else(|_| PathBuf::new())` —
the path of `current` relative to `base`, or the empty path when `base` is
not a prefix of `current`. -/
def relPath (base current : FsPath) : FsPath :=
  if base.isPrefixOf current then current.drop base.length else []

/-- `load_recursive(base, current, blogs)`.  `all` is the full listing of
`current` (what `read_dir` returns, handed to `Blog::load` on discovery of a
manifest file) and the last argument is the suffix of it still to process. -/
def loadRecDir (base current : FsPath) (all : List FsEntry) :
    List FsEntry → Except LoadError (List Blog)
  | [] => .ok []
  | .dir n sub :: rest =>
      match loadRecDir base (current ++ [n]) sub sub with
      | .error e => .error e
      | .ok bs1 =>
        match loadRecDir base current all rest with
        | .error e => .error e
        | .ok bs2 => .ok (bs1 ++ bs2)
  | .dirUnreadable _ :: _ => .error .ioError
  | .broken _ :: _ => .error .ioError
  | .special _ :: rest => loadRecDir base current all rest
  | .file n _ :: rest =>
      if n = MANIFEST_FILE then
        match Blog.load (relPath base current) all with
        | .error e => .error e
        | .ok b =>
          match loadRecDir base current all rest with
          | .error e => .error e
          | .ok bs => .ok (b :: bs)
      else loadRecDir base current all rest
termination_by todo => sizeOf todo
decreasing_by all_goals (simp; try omega)

/-- `pub(crate) fn load(base: &Path)`: run the recursive walk from the base
directory, whose listing is `root`. -/
def load (base : FsPath) (root : List FsEntry) : Except LoadError (List Blog) :=
  loadRecDir base base root root

/-- `PathBuf::to_string_lossy` for component paths. -/
def pathToString (p : FsPath) : String := String.intercalate "/" p

/-- `fn add_postfix_slash`: the string form of the path, with `'/'` pushed
exactly when that string is non-empty.  (Serde serializer for `Blog.pfx`.) -/
def addTrailingSlash (p : FsPath) : String :=
  let s := pathToString p
  if s.isEmpty then s else s ++ "/"

/-- How the `prefix` field of a `Blog` serializes
(`#[serde(serialize_with = "add_postfix_slash")]`). -/
def Blog.serializedPfx (b : Blog) : String := addTrailingSlash b.pfx

/-- Number of files literally named `blog.yml` anywhere in a listing's tree:
the number of blog roots the walker recognizes. -/
def countManifests : List FsEntry → Nat
  | [] => 0
  | .dir _ sub :: rest => countManifests sub + countManifests rest
  | .dirUnreadable _ :: rest => countManifests rest
  | .broken _ :: rest => countManifests rest
  | .special _ :: rest => countManifests rest
  | .file n _ :: rest =>
      (if n = MANIFEST_FILE then 1 else 0) + countManifests rest
termination_by todo => sizeOf todo
decreasing_by all_goals (simp; try omega)

/-- Whether an entry is one whose `metadata()` call fails. -/
def FsEntry.isBroken : FsEntry → Bool
  | .broken _ => true
  | _ => false

/-- Whether an entry is a directory (readable or not). -/
def FsEntry.isDirectory : FsEntry → Bool
  | .dir _ _ => true
  | .dirUnreadable _ => true
  | _ => false

/-- The five keys of a manifest document, in kebab-case as they appear on disk. -/
def manifestKeys : List String :=
  ["title", "index-title", "description", "maintained-by", "requires-team"]

/-- Whether a YAML value is a string scalar. -/
def MValue.isStr : MValue → Bool
  | .str _ => true
  | _ => false

/-- Whether a YAML value is a boolean scalar. -/
def MValue.isBool : MValue → Bool
  | .bool _ => true
  | _ => false

/-- The value kind serde expects for a manifest key: `bool` for
`requires-team`, a string for each of the other four fields. -/
def fieldKindOK (k : String) (v : MValue) : Bool :=
  if k = "requires-team" then v.isBool else v.isStr

/-- First value bound to a key in a document. -/
def docLookup (doc : List (String × MValue)) (k : String) : Option MValue :=
  (doc.find? (fun p => p.1 == k)).map Prod.snd

/-- The string a successful parse must put in the field tracked by slot
`acc`: the slot's content if already filled, else the (string) value bound to
`k` in the document. -/
def valStr (acc : Option String) (doc : List (String × MValue)) (k : String) : String :=
  match acc with
  | some s => s
  | none =>
      match docLookup doc k with
      | some (.str s) => s
      | _ => ""

/-- Boolean analogue of `valStr`, for `requires-team`. -/
def valBool (acc : Option Bool) (doc : List (String × MValue)) (k : String) : Bool :=
  match acc with
  | some b => b
  | none =>
      match docLookup doc k with
      | some (.bool b) => b
      | _ => false

/-- Modelled from the spec (§4.2 step 2): the direct entries that are regular
files with the content extension, in listing order — exactly the files the
Post Loader is invoked on. -/
def specMdFiles : List FsEntry → List FileText
  | [] => []
  | .file n t :: rest =>
      if rustExtension n = some POSTS_EXT then t :: specMdFiles rest
      else specMdFiles rest
  | .dir _ _ :: rest => specMdFiles rest
  | .dirUnreadable _ :: rest => specMdFiles rest
  | .broken _ :: rest => specMdFiles rest
  | .special _ :: rest => specMdFiles rest

/-- Modelled from the spec (§4.2 step 2): invoke the Post Loader on each
selected file in order; any failure is fatal to the whole call. -/
def specRunPostLoader : List FileText → Except LoadError (List Post)
  | [] => .ok []
  | t :: rest =>
      match t.asPost with
      | .error _ => .error .postError
      | .ok p =>
          match specRunPostLoader rest with
          | .error e => .error e
          | .ok ps => .ok (p :: ps)

/-- Modelled from the spec (§4.2 step 4): the descending-by-url comparison. -/
def specGeUrl (a b : Post) : Bool := decide (b.url ≤ a.url)

/-- Modelled from the spec (§4.2 step 4): a direct stable descending sort by
`url`, to be compared against the code's ascending-sort-then-reverse. -/
def specDescSortPosts (l : List Post) : List Post :=
  l.mergeSort specGeUrl

/-- Replace the value of every `requires-team` entry of a document by the
boolean `b`: two documents that differ only in the (well-typed) value of
`requires-team` are `setRequiresTeam b₁ doc` and `setRequiresTeam b₂ doc`. -/
def setRequiresTeam (b : Bool) : List (String × MValue) → List (String × MValue)
  | [] => []
  | (k, v) :: rest =>
      (k, if k = "requires-team" then .bool b else v) :: setRequiresTeam b rest

/-- Apply `setRequiresTeam b` to the manifest document of every file named
`blog.yml`; all other entries are untouched. -/
def setEntryRT (b : Bool) : FsEntry → FsEntry
  | .file n t =>
      if n = MANIFEST_FILE then
        .file n { t with asManifestDoc := t.asManifestDoc.map (setRequiresTeam b) }
      else .file n t
  | e => e

/-! ### Concrete test fixtures -/

/-- A manifest document with all five fields, well-typed. -/
def goodDoc : List (String × MValue) :=
  [("title", .str "T"), ("index-title", .str "IT"), ("description", .str "D"),
   ("maintained-by", .str "M"), ("requires-team", .bool false)]

/-- A `blog.yml` whose text parses to `goodDoc`. -/
def manifestFileText : FileText := { asManifestDoc := .ok goodDoc, asPost := .error () }

/-- A `blog.yml` whose document has only the `title` field (schema violation). -/
def badManifestFileText : FileText :=
  { asManifestDoc := .ok [("title", .str "T")], asPost := .error () }

/-- A content file on which the Post Loader succeeds with the given url/year. -/
def postFileText (u : String) (y : Int) : FileText :=
  { asManifestDoc := .error (), asPost := .ok { url := u, year := y, show_year := false } }

/-- Blog directory for the show-year example: six posts whose urls ascend
`a..f`, so the descending order is `f,e,d,c,b,a` with years
`2024, 2024, 2023, 2023, 2023, 2022`. -/
def c2Entries : List FsEntry :=
  [ .file "blog.yml" manifestFileText,
    .file "p1.md" (postFileText "a" 2022),
    .file "p2.md" (postFileText "b" 2023),
    .file "p3.md" (postFileText "c" 2023),
    .file "p4.md" (postFileText "d" 2023),
    .file "p5.md" (postFileText "e" 2024),
    .file "p6.md" (postFileText "f" 2024) ]

/-- The blog `Blog::load` produces from `c2Entries`. -/
def c2Blog : Blog :=
  { title := "T", index_title := "IT", description := "D", maintained_by := "M",
    pfx := [],
    posts := [{ url := "f", year := 2024, show_year := true },
              { url := "e", year := 2024, show_year := false },
              { url := "d", year := 2023, show_year := true },
              { url := "c", year := 2023, show_year := false },
              { url := "b", year := 2023, show_year := false },
              { url := "a", year := 2022, show_year := true }] }

/-- A valid blog directory with two posts. -/
def dirA : List FsEntry :=
  [ .file "blog.yml" manifestFileText,
    .file "p1.md" (postFileText "a1" 2024),
    .file "p2.md" (postFileText "a2" 2024),
    .file "notes.txt" (postFileText "zz" 0) ]

/-- A valid blog directory with one post. -/
def dirB : List FsEntry :=
  [ .file "blog.yml" manifestFileText,
    .file "q1.md" (postFileText "b1" 2023) ]

/-- A blog directory whose manifest violates the schema. -/
def badDir : List FsEntry :=
  [ .file "blog.yml" badManifestFileText,
    .file "x.md" (postFileText "x1" 2020) ]

/-- Base listing with a root blog and a nested blog at `foo/bar`. -/
def c5Fs : List FsEntry :=
  [ .file "blog.yml" manifestFileText,
    .file "r.md" (postFileText "r1" 2024),
    .dir "foo" [ .dir "bar" dirB ] ]

/-- Base listing with a malformed blog in `a` and a valid sibling in `b`. -/
def c6Fs : List FsEntry := [ .dir "a" badDir, .dir "b" dirB ]

/-- Base listing with two independent valid blogs. -/
def c8Fs : List FsEntry := [ .dir "a" dirA, .dir "b" dirB ]

/-- Strict descending-by-url is vacuously antisymmetric. -/
instance : IsAntisymm Post (fun a b => b.url < a.url) :=
  ⟨fun _ _ h1 h2 => absurd (lt_trans h1 h2) (lt_irrefl _)⟩

/-- Erase the `requires_team` field (the only field of `Manifest` with no
counterpart in `Blog`). -/
def stripRT (m : Manifest) : Manifest := { m with requires_team := false }

/-! ### General lemmas about the embedding -/

/-- `String` order coincides with lexicographic order on the character lists
(as Rust's bytewise `String` order does on UTF-8); the right-hand side is
kernel-computable. -/
lemma postLeUrl_eval (a b : Post) : postLeUrl a b = decide (a.url.toList ≤ b.url.toList) := by
  simp [postLeUrl, decide_eq_decide, String.le_iff_toList_le]

/-- On a list already sorted ascending by url, the ascending sort is the
identity, so `sort-then-reverse` is `reverse`. -/
lemma sortPostsDescending_of_sorted {l : List Post}
    (h : List.Pairwise (fun a b => postLeUrl a b) l) :
    sortPostsDescending l = l.reverse := by
  simp [sortPostsDescending, List.mergeSort_of_sorted h]

/-- Anatomy of a successful `Blog::load`: every stage succeeded, the sorted
post list is non-empty, and the result is assembled from the manifest fields,
the prefix, and the show-year-annotated sorted posts. -/
lemma Blog.load_ok_elim {pfx : FsPath} {entries : List FsEntry} {b : Blog}
    (hb : Blog.load pfx entries = .ok b) :
    ∃ t doc m ps p rest,
      readFileNamed MANIFEST_FILE entries = .ok t ∧
      t.asManifestDoc = .ok doc ∧
      Manifest.parse doc = .ok m ∧
      collectPosts entries = .ok ps ∧
      sortPostsDescending ps = p :: rest ∧
      b = { title := m.title, index_title := m.index_title,
            description := m.description, maintained_by := m.maintained_by,
            pfx := pfx,
            posts := { p with show_year := true } :: showYearRest p.year rest } := by
  simp only [Blog.load] at hb
  rcases h1 : readFileNamed MANIFEST_FILE entries with e | txt
  · simp [h1] at hb
  simp only [h1] at hb
  rcases h2 : txt.asManifestDoc with u | doc
  · simp [h2] at hb
  simp only [h2] at hb
  rcases h3 : Manifest.parse doc with e | m
  · simp [h3] at hb
  simp only [h3] at hb
  rcases h4 : collectPosts entries with e | ps
  · simp [h4] at hb
  simp only [h4] at hb
  rcases h5 : sortPostsDescending ps with _ | ⟨p, rest⟩
  · simp [h5] at hb
  simp only [h5] at hb
  cases hb
  exact ⟨txt, doc, m, ps, p, rest, rfl, h2, h3, rfl, h5, rfl⟩

/-- A directory with no `md`-extension files collects either no posts or an
I/O error (from an entry whose metadata query fails). -/
lemma collectPosts_no_md (entries : List FsEntry)
    (h : ∀ n t, FsEntry.file n t ∈ entries → rustExtension n ≠ some POSTS_EXT) :
    collectPosts entries = .ok [] ∨ ∃ e, collectPosts entries = .error e := by
  induction entries with
  | nil => left; rfl
  | cons e rest ih =>
    have ih' := ih (fun n t hm => h n t (List.mem_cons_of_mem _ hm))
    cases e with
    | file n t =>
      have hn := h n t (List.mem_cons_self _ _)
      simpa [collectPosts, hn] using ih'
    | dir n sub => simpa [collectPosts] using ih'
    | dirUnreadable n => simpa [collectPosts] using ih'
    | broken n => right; exact ⟨_, rfl⟩
    | special n => simpa [collectPosts] using ih'

/-! ### Fixture evaluations -/

lemma c2_sort : sortPostsDescending
    [{ url := "a", year := 2022, show_year := false },
     { url := "b", year := 2023, show_year := false },
     { url := "c", year := 2023, show_year := false },
     { url := "d", year := 2023, show_year := false },
     { url := "e", year := 2024, show_year := false },
     { url := "f", year := 2024, show_year := false }] =
    [{ url := "f", year := 2024, show_year := false },
     { url := "e", year := 2024, show_year := false },
     { url := "d", year := 2023, show_year := false },
     { url := "c", year := 2023, show_year := false },
     { url := "b", year := 2023, show_year := false },
     { url := "a", year := 2022, show_year := false }] := by
  rw [sortPostsDescending_of_sorted]
  · rfl
  · simp [List.pairwise_cons, postLeUrl_eval]
    decide

lemma goodDoc_parse : Manifest.parse goodDoc = .ok
    { title := "T", index_title := "IT", description := "D", maintained_by := "M",
      requires_team := false } := by
  rfl

lemma c2_load : Blog.load [] c2Entries = .ok c2Blog := by
  simp [Blog.load, c2Entries, readFileNamed, MANIFEST_FILE, manifestFileText, postFileText,
    goodDoc_parse, collectPosts, rustExtension, POSTS_EXT, c2_sort, showYearRest, c2Blog]

/-- The first element of a show-year pass over `l` with preceding year `y`
is marked iff its year differs from `y`. -/
lemma showYearRest_zero (y : Int) (l : List Post) (q : Post)
    (hq : (showYearRest y l)[0]? = some q) :
    q.show_year = (y != q.year) := by
  cases l with
  | nil => simp [showYearRest] at hq
  | cons b rest =>
    simp [showYearRest] at hq
    subst hq
    rfl

/-- Within a show-year pass, each element after the first is marked iff its
year differs from its predecessor's. -/
lemma showYearRest_consec (y : Int) (l : List Post) (i : Nat) (p q : Post)
    (hp : (showYearRest y l)[i]? = some p) (hq : (showYearRest y l)[i+1]? = some q) :
    q.show_year = (p.year != q.year) := by
  induction l generalizing y i with
  | nil => simp [showYearRest] at hp
  | cons a rest ih =>
    cases i with
    | zero =>
      simp [showYearRest] at hp
      have hq0 : (showYearRest a.year rest)[0]? = some q := by
        simpa [showYearRest] using hq
      have hz := showYearRest_zero a.year rest q hq0
      subst hp
      simpa using hz
    | succ k =>
      have hp2 : (showYearRest a.year rest)[k]? = some p := by
        simpa [showYearRest] using hp
      have hq2 : (showYearRest a.year rest)[k+1]? = some q := by
        simpa [showYearRest] using hq
      exact ih a.year k hp2 hq2

/-- C1: a directory holding a valid manifest and zero `md` files never yields
a `Blog`: no successful `Blog::load` returns an empty post list, and on a
listing without `md` files `Blog::load` always fails (in the code the
zero-post case is the `posts[0]` index panic, `panicIndex` in the model,
which aborts the top-level load just like a propagated error). -/
theorem C1_empty_blog_never_loads :
    (∀ (pfx : FsPath) (entries : List FsEntry) (b : Blog),
        Blog.load pfx entries = .ok b → b.posts ≠ []) ∧
    (∀ (pfx : FsPath) (entries : List FsEntry),
        (∀ n t, FsEntry.file n t ∈ entries → rustExtension n ≠ some POSTS_EXT) →
        ∃ e, Blog.load pfx entries = .error e) := by
  constructor
  · intro pfx entries b hb
    obtain ⟨t, doc, m, ps, p, rest, _, _, _, _, _, hbeq⟩ := Blog.load_ok_elim hb
    subst hbeq
    simp
  · intro pfx entries h
    rcases hload : Blog.load pfx entries with e | b
    · exact ⟨e, rfl⟩
    · exfalso
      obtain ⟨t, doc, m, ps, p, rest, _, _, _, h4, h5, _⟩ := Blog.load_ok_elim hload
      rcases collectPosts_no_md entries h with hc | ⟨e, hc⟩
      · rw [h4] at hc
        cases hc
        simp [sortPostsDescending] at h5
      · rw [h4] at hc
        cases hc

/-- Witness for C1 at a concrete directory: a valid manifest and no posts. -/
theorem C1_empty_blog_never_loads_witness :
    ∃ e, Blog.load [] [FsEntry.file "blog.yml" manifestFileText] = .error e :=
  C1_empty_blog_never_loads.2 [] _ (by
    intro n t hm
    simp at hm
    rcases hm with ⟨hn, _⟩
    subst hn
    decide)

/-- C2: in a loaded blog the first post always shows its year, and each later
post shows it exactly when its year differs from the preceding post's; on the
concrete sorted year sequence `[2024, 2024, 2023, 2023, 2023, 2022]` this
gives `[true, false, true, false, false, true]`. -/
theorem C2_show_year_grouping :
    (∀ (pfx : FsPath) (entries : List FsEntry) (b : Blog),
        Blog.load pfx entries = .ok b →
        (∀ p, b.posts[0]? = some p → p.show_year = true) ∧
        (∀ i p q, b.posts[i]? = some p → b.posts[i+1]? = some q →
            q.show_year = (p.year != q.year))) ∧
    ((Blog.load [] c2Entries).map fun b =>
        (b.posts.map Post.year, b.posts.map Post.show_year)) =
      .ok ([2024, 2024, 2023, 2023, 2023, 2022],
           [true, false, true, false, false, true]) := by
  constructor
  · intro pfx entries b hb
    obtain ⟨t, doc, m, ps, p0, rest, _, _, _, _, _, hbeq⟩ := Blog.load_ok_elim hb
    subst hbeq
    constructor
    · intro p hp
      simp at hp
      subst hp
      rfl
    · intro i p q hp hq
      cases i with
      | zero =>
        simp at hp hq
        have hz := showYearRest_zero p0.year rest q hq
        subst hp
        simpa using hz
      | succ k =>
        simp at hp hq
        exact showYearRest_consec p0.year rest k p q hp hq
  · rw [c2_load]
    rfl

/-- Witness for C2: the second post of the concrete blog (year 2024, after a
2024 post) does not show its year. -/
theorem C2_show_year_grouping_witness :
    ({ url := "e", year := 2024, show_year := false } : Post).show_year =
      (({ url := "f", year := 2024, show_year := true } : Post).year !=
       ({ url := "e", year := 2024, show_year := false } : Post).year) :=
  (C2_show_year_grouping.1 [] c2Entries c2Blog c2_load).2 0
    { url := "f", year := 2024, show_year := true }
    { url := "e", year := 2024, show_year := false } rfl rfl

/-- Show-year marking never touches urls. -/
lemma showYearRest_map_url (y : Int) (l : List Post) :
    (showYearRest y l).map Post.url = l.map Post.url := by
  induction l generalizing y with
  | nil => rfl
  | cons a rest ih => simp [showYearRest, ih]

lemma postLeUrl_trans : ∀ (a b c : Post), postLeUrl a b → postLeUrl b c → postLeUrl a c := by
  intro a b c
  simp only [postLeUrl, decide_eq_true_eq]
  exact le_trans

lemma postLeUrl_total : ∀ (a b : Post), postLeUrl a b || postLeUrl b a := by
  intro a b
  simp only [postLeUrl, Bool.or_eq_true, decide_eq_true_eq]
  exact le_total _ _

/-- The ascending-sort-then-reverse result is weakly descending by url. -/
lemma sortPostsDescending_sorted_le (l : List Post) :
    List.Pairwise (fun a b => b.url ≤ a.url) (sortPostsDescending l) := by
  have h := List.sorted_mergeSort postLeUrl_trans postLeUrl_total l
  rw [sortPostsDescending, List.pairwise_reverse]
  exact h.imp (by simp [postLeUrl])

lemma sortPostsDescending_perm (l : List Post) : List.Perm (sortPostsDescending l) l :=
  (List.reverse_perm _).trans (List.mergeSort_perm l _)

lemma specDescSortPosts_perm (l : List Post) : List.Perm (specDescSortPosts l) l :=
  List.mergeSort_perm l _

lemma specGeUrl_trans : ∀ (a b c : Post), specGeUrl a b → specGeUrl b c → specGeUrl a c := by
  intro a b c
  simp only [specGeUrl, decide_eq_true_eq]
  exact fun h1 h2 => le_trans h2 h1

lemma specGeUrl_total : ∀ (a b : Post), specGeUrl a b || specGeUrl b a := by
  intro a b
  simp only [specGeUrl, Bool.or_eq_true, decide_eq_true_eq]
  exact le_total _ _

/-- The spec's direct descending sort is weakly descending by url. -/
lemma specDescSortPosts_sorted_le (l : List Post) :
    List.Pairwise (fun a b => b.url ≤ a.url) (specDescSortPosts l) := by
  have h := List.sorted_mergeSort specGeUrl_trans specGeUrl_total l
  exact h.imp (by simp [specGeUrl])

/-- With pairwise-distinct urls, weak descending order is strict. -/
lemma pairwise_strict_of_nodup {l : List Post}
    (hle : List.Pairwise (fun a b => b.url ≤ a.url) l)
    (hnd : (l.map Post.url).Nodup) :
    List.Pairwise (fun a b => b.url < a.url) l := by
  rw [List.Nodup, List.pairwise_map] at hnd
  exact (hle.and hnd).imp (fun h => lt_of_le_of_ne h.1 (fun he => h.2 he.symm))

/-- C3: loaded posts with pairwise-distinct urls are in strictly descending
url order, and on any post list with distinct urls the code's
ascending-sort-then-reverse agrees with the spec's direct descending sort. -/
theorem C3_descending_sort :
    (∀ (pfx : FsPath) (entries : List FsEntry) (b : Blog),
        Blog.load pfx entries = .ok b →
        (b.posts.map Post.url).Nodup →
        List.Pairwise (fun u v : String => v < u) (b.posts.map Post.url)) ∧
    (∀ l : List Post, (l.map Post.url).Nodup →
        sortPostsDescending l = specDescSortPosts l) := by
  constructor
  · intro pfx entries b hb hnd
    obtain ⟨t, doc, m, ps, p0, rest, _, _, _, _, h5, hbeq⟩ := Blog.load_ok_elim hb
    have hmap : b.posts.map Post.url = (sortPostsDescending ps).map Post.url := by
      subst hbeq
      simp [h5, showYearRest_map_url]
    rw [hmap] at hnd ⊢
    rw [List.pairwise_map]
    exact pairwise_strict_of_nodup (sortPostsDescending_sorted_le ps) hnd
  · intro l hnd
    have hnd1 : ((sortPostsDescending l).map Post.url).Nodup :=
      (((sortPostsDescending_perm l).map Post.url).nodup_iff).mpr hnd
    have hnd2 : ((specDescSortPosts l).map Post.url).Nodup :=
      (((specDescSortPosts_perm l).map Post.url).nodup_iff).mpr hnd
    exact List.eq_of_perm_of_sorted
      ((sortPostsDescending_perm l).trans (specDescSortPosts_perm l).symm)
      (pairwise_strict_of_nodup (sortPostsDescending_sorted_le l) hnd1)
      (pairwise_strict_of_nodup (specDescSortPosts_sorted_le l) hnd2)

/-- Witness for C3: the concrete loaded blog is strictly descending by url,
and both sort orders agree on a concrete two-post list. -/
theorem C3_descending_sort_witness :
    List.Pairwise (fun u v : String => v < u) (c2Blog.posts.map Post.url) ∧
    sortPostsDescending
        [{ url := "a", year := 1, show_year := false },
         { url := "b", year := 2, show_year := false }] =
      specDescSortPosts
        [{ url := "a", year := 1, show_year := false },
         { url := "b", year := 2, show_year := false }] :=
  ⟨C3_descending_sort.1 [] c2Entries c2Blog c2_load (by
      simp [c2Blog, List.nodup_cons]),
   C3_descending_sort.2 _ (by
      simp [List.nodup_cons])⟩

lemma parseFinish_ok {t it d mb : Option String} {rt : Option Bool} {m : Manifest}
    (h : parseFinish t it d mb rt = .ok m) :
    t = some m.title ∧ it = some m.index_title ∧ d = some m.description ∧
    mb = some m.maintained_by ∧ rt = some m.requires_team := by
  cases t <;> cases it <;> cases d <;> cases mb <;> cases rt <;>
    simp [parseFinish] at h <;> subst h <;> simp

lemma parseStep_ok_elim {k : String} {v : MValue} {t it d mb : Option String}
    {rt : Option Bool}
    {st : Option String × Option String × Option String × Option String × Option Bool}
    (h : parseStep k v t it d mb rt = .ok st) :
    (k = "title" ∧ t = none ∧ ∃ s, v = .str s ∧ st = (some s, it, d, mb, rt)) ∨
    (k = "index-title" ∧ it = none ∧ ∃ s, v = .str s ∧ st = (t, some s, d, mb, rt)) ∨
    (k = "description" ∧ d = none ∧ ∃ s, v = .str s ∧ st = (t, it, some s, mb, rt)) ∨
    (k = "maintained-by" ∧ mb = none ∧ ∃ s, v = .str s ∧ st = (t, it, d, some s, rt)) ∨
    (k = "requires-team" ∧ rt = none ∧ ∃ b, v = .bool b ∧ st = (t, it, d, mb, some b)) := by
  delta parseStep at h
  by_cases h1 : k = "title"
  · rw [if_pos h1] at h
    rcases t with _ | s0
    · rcases v with s | b | _
      · cases h
        exact Or.inl ⟨h1, rfl, s, rfl, rfl⟩
      · cases h
      · cases h
    · cases v <;> cases h
  · rw [if_neg h1] at h
    by_cases h2 : k = "index-title"
    · rw [if_pos h2] at h
      rcases it with _ | s0
      · rcases v with s | b | _
        · cases h
          exact Or.inr (Or.inl ⟨h2, rfl, s, rfl, rfl⟩)
        · cases h
        · cases h
      · cases v <;> cases h
    · rw [if_neg h2] at h
      by_cases h3 : k = "description"
      · rw [if_pos h3] at h
        rcases d with _ | s0
        · rcases v with s | b | _
          · cases h
            exact Or.inr (Or.inr (Or.inl ⟨h3, rfl, s, rfl, rfl⟩))
          · cases h
          · cases h
        · cases v <;> cases h
      · rw [if_neg h3] at h
        by_cases h4 : k = "maintained-by"
        · rw [if_pos h4] at h
          rcases mb with _ | s0
          · rcases v with s | b | _
            · cases h
              exact Or.inr (Or.inr (Or.inr (Or.inl ⟨h4, rfl, s, rfl, rfl⟩)))
            · cases h
            · cases h
          · cases v <;> cases h
        · rw [if_neg h4] at h
          by_cases h5 : k = "requires-team"
          · rw [if_pos h5] at h
            rcases rt with _ | b0
            · rcases v with s | b | _
              · cases h
              · cases h
                exact Or.inr (Or.inr (Or.inr (Or.inr ⟨h5, rfl, b, rfl, rfl⟩)))
              · cases h
            · cases v <;> cases h
          · rw [if_neg h5] at h
            cases h

example : fieldKindOK "requires-team" (MValue.bool true) = true := rfl
example (w : Bool) : fieldKindOK "requires-team" (MValue.bool w) = true := rfl
example (w : String) : fieldKindOK "title" (MValue.str w) = true := rfl
example : ("requires-team" : String) ∈ manifestKeys := by decide

lemma parseGo_ok_sound : ∀ (doc : List (String × MValue)) (t it d mb : Option String)
    (rt : Option Bool) (m : Manifest),
    parseGo doc t it d mb rt = .ok m →
    (∀ p ∈ doc, p.1 ∈ manifestKeys ∧ fieldKindOK p.1 p.2 = true) ∧
    ("title" ∈ doc.map Prod.fst ∨ t.isSome) ∧
    ("index-title" ∈ doc.map Prod.fst ∨ it.isSome) ∧
    ("description" ∈ doc.map Prod.fst ∨ d.isSome) ∧
    ("maintained-by" ∈ doc.map Prod.fst ∨ mb.isSome) ∧
    ("requires-team" ∈ doc.map Prod.fst ∨ rt.isSome) := by
  intro doc
  induction doc with
  | nil =>
    intro t it d mb rt m h
    simp only [parseGo] at h
    obtain ⟨e1, e2, e3, e4, e5⟩ := parseFinish_ok h
    subst e1
    subst e2
    subst e3
    subst e4
    subst e5
    simp
  | cons p rest ih =>
    rintro t it d mb rt m h
    obtain ⟨k, v⟩ := p
    simp only [parseGo] at h
    rcases hstep : parseStep k v t it d mb rt with e | st
    · rw [hstep] at h
      cases h
    · rw [hstep] at h
      obtain ⟨t2, it2, d2, mb2, rt2⟩ := st
      obtain ⟨hall, p1, p2, p3, p4, p5⟩ := ih _ _ _ _ _ _ h
      rcases parseStep_ok_elim hstep with h6 | h6 | h6 | h6 | h6 <;>
        (obtain ⟨hk, hnone, w, hv, hst⟩ := h6
         subst hk
         subst hv
         simp only [Prod.mk.injEq] at hst
         obtain ⟨e1, e2, e3, e4, e5⟩ := hst
         subst e1
         subst e2
         subst e3
         subst e4
         subst e5
         constructor
         · rintro q hq
           rcases List.mem_cons.mp hq with rfl | hq
           · exact ⟨by simp [manifestKeys], rfl⟩
           · exact hall q hq
         refine ⟨?_, ?_, ?_, ?_, ?_⟩ <;>
           (try simp only [List.map_cons]) <;>
           first
             | exact Or.inl (List.mem_cons_self _ _)
             | (rcases p1 with hm | hs
                · exact Or.inl (List.mem_cons_of_mem _ hm)
                · exact Or.inr hs)
             | (rcases p2 with hm | hs
                · exact Or.inl (List.mem_cons_of_mem _ hm)
                · exact Or.inr hs)
             | (rcases p3 with hm | hs
                · exact Or.inl (List.mem_cons_of_mem _ hm)
                · exact Or.inr hs)
             | (rcases p4 with hm | hs
                · exact Or.inl (List.mem_cons_of_mem _ hm)
                · exact Or.inr hs)
             | (rcases p5 with hm | hs
                · exact Or.inl (List.mem_cons_of_mem _ hm)
                · exact Or.inr hs))

lemma docLookup_cons_self (k : String) (v : MValue) (rest : List (String × MValue)) :
    docLookup ((k, v) :: rest) k = some v := by
  simp [docLookup, List.find?]

lemma docLookup_cons_ne {k k2 : String} (h : k2 ≠ k) (v : MValue)
    (rest : List (String × MValue)) :
    docLookup ((k, v) :: rest) k2 = docLookup rest k2 := by
  have hb : (k == k2) = false := by
    simp [Ne.symm h]
  simp [docLookup, List.find?, hb]

lemma valStr_some (s : String) (doc : List (String × MValue)) (k : String) :
    valStr (some s) doc k = s := rfl

lemma valBool_some (b : Bool) (doc : List (String × MValue)) (k : String) :
    valBool (some b) doc k = b := rfl

lemma valStr_self (k s : String) (rest : List (String × MValue)) :
    valStr none ((k, .str s) :: rest) k = s := by
  simp [valStr, docLookup_cons_self]

lemma valBool_self (k : String) (b : Bool) (rest : List (String × MValue)) :
    valBool none ((k, .bool b) :: rest) k = b := by
  simp [valBool, docLookup_cons_self]

lemma valStr_cons_ne {k k2 : String} (h : k2 ≠ k) (acc : Option String) (v : MValue)
    (rest : List (String × MValue)) :
    valStr acc ((k, v) :: rest) k2 = valStr acc rest k2 := by
  cases acc <;> simp [valStr, docLookup_cons_ne h]

lemma valBool_cons_ne {k k2 : String} (h : k2 ≠ k) (acc : Option Bool) (v : MValue)
    (rest : List (String × MValue)) :
    valBool acc ((k, v) :: rest) k2 = valBool acc rest k2 := by
  cases acc <;> simp [valBool, docLookup_cons_ne h]

lemma parseStep_title (s : String) (it d mb : Option String) (rt : Option Bool) :
    parseStep "title" (.str s) none it d mb rt = .ok (some s, it, d, mb, rt) := rfl

lemma parseStep_index_title (s : String) (t d mb : Option String) (rt : Option Bool) :
    parseStep "index-title" (.str s) t none d mb rt = .ok (t, some s, d, mb, rt) := rfl

lemma parseStep_description (s : String) (t it mb : Option String) (rt : Option Bool) :
    parseStep "description" (.str s) t it none mb rt = .ok (t, it, some s, mb, rt) := rfl

lemma parseStep_maintained_by (s : String) (t it d : Option String) (rt : Option Bool) :
    parseStep "maintained-by" (.str s) t it d none rt = .ok (t, it, d, some s, rt) := rfl

lemma parseStep_requires_team (b : Bool) (t it d mb : Option String) :
    parseStep "requires-team" (.bool b) t it d mb none = .ok (t, it, d, mb, some b) := rfl

lemma parseGo_ok_complete : ∀ (doc : List (String × MValue)) (t it d mb : Option String)
    (rt : Option Bool),
    (doc.map Prod.fst).Nodup →
    (∀ p ∈ doc, p.1 ∈ manifestKeys ∧ fieldKindOK p.1 p.2 = true) →
    (t = none ↔ "title" ∈ doc.map Prod.fst) →
    (it = none ↔ "index-title" ∈ doc.map Prod.fst) →
    (d = none ↔ "description" ∈ doc.map Prod.fst) →
    (mb = none ↔ "maintained-by" ∈ doc.map Prod.fst) →
    (rt = none ↔ "requires-team" ∈ doc.map Prod.fst) →
    parseGo doc t it d mb rt =
      .ok { title := valStr t doc "title",
            index_title := valStr it doc "index-title",
            description := valStr d doc "description",
            maintained_by := valStr mb doc "maintained-by",
            requires_team := valBool rt doc "requires-team" } := by
  intro doc
  induction doc with
  | nil =>
    intro t it d mb rt hnd hall h1 h2 h3 h4 h5
    simp only [List.map_nil, List.not_mem_nil, iff_false] at h1 h2 h3 h4 h5
    rcases t with _ | a1
    · exact absurd rfl h1
    rcases it with _ | a2
    · exact absurd rfl h2
    rcases d with _ | a3
    · exact absurd rfl h3
    rcases mb with _ | a4
    · exact absurd rfl h4
    rcases rt with _ | a5
    · exact absurd rfl h5
    rfl
  | cons p rest ih =>
    rintro t it d mb rt hnd hall h1 h2 h3 h4 h5
    obtain ⟨k, v⟩ := p
    have hk := (hall _ (List.mem_cons_self _ _)).1
    have hkind := (hall _ (List.mem_cons_self _ _)).2
    simp only [manifestKeys, List.mem_cons, List.not_mem_nil, or_false] at hk
    rcases hk with rfl | rfl | rfl | rfl | rfl
    · cases v with
      | bool b2 => simp [fieldKindOK, MValue.isStr] at hkind
      | other => simp [fieldKindOK, MValue.isStr] at hkind
      | str w =>
        have hacc : t = none := h1.mpr (by simp)
        subst hacc
        have hnd2 := List.nodup_cons.mp hnd
        rw [show parseGo (("title", MValue.str w) :: rest) none it d mb rt
              = parseGo rest (some w) it d mb rt from by
            simp only [parseGo, parseStep_title]]
        rw [ih (some w) it d mb rt hnd2.2
            (fun p hp => hall p (List.mem_cons_of_mem _ hp))
            (iff_of_false (by simp) hnd2.1)
            (by simpa using h2)
            (by simpa using h3)
            (by simpa using h4)
            (by simpa using h5)]
        simp [valStr_some, valBool_some, valStr_self, valBool_self,
          valStr_cons_ne, valBool_cons_ne]
    · cases v with
      | bool b2 => simp [fieldKindOK, MValue.isStr] at hkind
      | other => simp [fieldKindOK, MValue.isStr] at hkind
      | str w =>
        have hacc : it = none := h2.mpr (by simp)
        subst hacc
        have hnd2 := List.nodup_cons.mp hnd
        rw [show parseGo (("index-title", MValue.str w) :: rest) t none d mb rt
              = parseGo rest t (some w) d mb rt from by
            simp only [parseGo, parseStep_index_title]]
        rw [ih t (some w) d mb rt hnd2.2
            (fun p hp => hall p (List.mem_cons_of_mem _ hp))
            (by simpa using h1)
            (iff_of_false (by simp) hnd2.1)
            (by simpa using h3)
            (by simpa using h4)
            (by simpa using h5)]
        simp [valStr_some, valBool_some, valStr_self, valBool_self,
          valStr_cons_ne, valBool_cons_ne]
    · cases v with
      | bool b2 => simp [fieldKindOK, MValue.isStr] at hkind
      | other => simp [fieldKindOK, MValue.isStr] at hkind
      | str w =>
        have hacc : d = none := h3.mpr (by simp)
        subst hacc
        have hnd2 := List.nodup_cons.mp hnd
        rw [show parseGo (("description", MValue.str w) :: rest) t it none mb rt
              = parseGo rest t it (some w) mb rt from by
            simp only [parseGo, parseStep_description]]
        rw [ih t it (some w) mb rt hnd2.2
            (fun p hp => hall p (List.mem_cons_of_mem _ hp))
            (by simpa using h1)
            (by simpa using h2)
            (iff_of_false (by simp) hnd2.1)
            (by simpa using h4)
            (by simpa using h5)]
        simp [valStr_some, valBool_some, valStr_self, valBool_self,
          valStr_cons_ne, valBool_cons_ne]
    · cases v with
      | bool b2 => simp [fieldKindOK, MValue.isStr] at hkind
      | other => simp [fieldKindOK, MValue.isStr] at hkind
      | str w =>
        have hacc : mb = none := h4.mpr (by simp)
        subst hacc
        have hnd2 := List.nodup_cons.mp hnd
        rw [show parseGo (("maintained-by", MValue.str w) :: rest) t it d none rt
              = parseGo rest t it d (some w) rt from by
            simp only [parseGo, parseStep_maintained_by]]
        rw [ih t it d (some w) rt hnd2.2
            (fun p hp => hall p (List.mem_cons_of_mem _ hp))
            (by simpa using h1)
            (by simpa using h2)
            (by simpa using h3)
            (iff_of_false (by simp) hnd2.1)
            (by simpa using h5)]
        simp [valStr_some, valBool_some, valStr_self, valBool_self,
          valStr_cons_ne, valBool_cons_ne]
    · cases v with
      | str s2 => simp [fieldKindOK, MValue.isBool] at hkind
      | other => simp [fieldKindOK, MValue.isBool] at hkind
      | bool w =>
        have hacc : rt = none := h5.mpr (by simp)
        subst hacc
        have hnd2 := List.nodup_cons.mp hnd
        rw [show parseGo (("requires-team", MValue.bool w) :: rest) t it d mb none
              = parseGo rest t it d mb (some w) from by
            simp only [parseGo, parseStep_requires_team]]
        rw [ih t it d mb (some w) hnd2.2
            (fun p hp => hall p (List.mem_cons_of_mem _ hp))
            (by simpa using h1)
            (by simpa using h2)
            (by simpa using h3)
            (by simpa using h4)
            (iff_of_false (by simp) hnd2.1)]
        simp [valStr_some, valBool_some, valStr_self, valBool_self,
          valStr_cons_ne, valBool_cons_ne]

lemma docLookup_mem {doc : List (String × MValue)} {k : String}
    (hmem : k ∈ doc.map Prod.fst) : ∃ v, docLookup doc k = some v ∧ (k, v) ∈ doc := by
  induction doc with
  | nil => simp at hmem
  | cons p rest ih =>
    obtain ⟨k2, v2⟩ := p
    by_cases hk : k2 = k
    · subst hk
      exact ⟨v2, docLookup_cons_self _ _ _, List.mem_cons_self _ _⟩
    · have hmem2 : k ∈ rest.map Prod.fst := by
        rcases List.mem_cons.mp hmem with h | h
        · exact absurd h.symm hk
        · exact h
      obtain ⟨v, hv, hvm⟩ := ih hmem2
      exact ⟨v, by rw [docLookup_cons_ne (fun he => hk he.symm)]; exact hv,
             List.mem_cons_of_mem _ hvm⟩

/-- C4: manifest parsing is strict: it fails when any of the five required
keys is absent, when an unrecognized key is present, or when a field has the
wrong kind; a well-formed mapping with exactly the five keys parses, each
field copied verbatim, and a successful `Blog::load` copies the four
manifest string fields verbatim into the `Blog`. -/
theorem C4_manifest_strictness :
    (∀ (doc : List (String × MValue)) (k : String),
        k ∈ manifestKeys → k ∉ doc.map Prod.fst →
        ∃ e, Manifest.parse doc = .error e) ∧
    (∀ (doc : List (String × MValue)) (k : String) (v : MValue),
        (k, v) ∈ doc → k ∉ manifestKeys →
        ∃ e, Manifest.parse doc = .error e) ∧
    (∀ (doc : List (String × MValue)) (k : String) (v : MValue),
        (k, v) ∈ doc → fieldKindOK k v = false →
        ∃ e, Manifest.parse doc = .error e) ∧
    (∀ doc : List (String × MValue),
        (doc.map Prod.fst).Nodup →
        (∀ p ∈ doc, p.1 ∈ manifestKeys ∧ fieldKindOK p.1 p.2 = true) →
        (∀ k ∈ manifestKeys, k ∈ doc.map Prod.fst) →
        ∃ m, Manifest.parse doc = .ok m ∧
          docLookup doc "title" = some (.str m.title) ∧
          docLookup doc "index-title" = some (.str m.index_title) ∧
          docLookup doc "description" = some (.str m.description) ∧
          docLookup doc "maintained-by" = some (.str m.maintained_by) ∧
          docLookup doc "requires-team" = some (.bool m.requires_team)) ∧
    (∀ (pfx : FsPath) (entries : List FsEntry) (b : Blog) (t : FileText)
        (doc : List (String × MValue)) (m : Manifest),
        Blog.load pfx entries = .ok b →
        readFileNamed MANIFEST_FILE entries = .ok t →
        t.asManifestDoc = .ok doc →
        Manifest.parse doc = .ok m →
        b.title = m.title ∧ b.index_title = m.index_title ∧
        b.description = m.description ∧ b.maintained_by = m.maintained_by) := by
  refine ⟨?_, ?_, ?_, ?_, ?_⟩
  · intro doc k hk hkmem
    rcases hp : Manifest.parse doc with e | m
    · exact ⟨e, rfl⟩
    exfalso
    obtain ⟨_, q1, q2, q3, q4, q5⟩ := parseGo_ok_sound doc none none none none none m hp
    simp only [Option.isSome_none, Bool.false_eq_true, or_false] at q1 q2 q3 q4 q5
    simp only [manifestKeys, List.mem_cons, List.not_mem_nil, or_false] at hk
    rcases hk with rfl | rfl | rfl | rfl | rfl <;> contradiction
  · intro doc k v hmem hk
    rcases hp : Manifest.parse doc with e | m
    · exact ⟨e, rfl⟩
    exfalso
    obtain ⟨hall, _⟩ := parseGo_ok_sound doc none none none none none m hp
    exact hk (hall (k, v) hmem).1
  · intro doc k v hmem hkind
    rcases hp : Manifest.parse doc with e | m
    · exact ⟨e, rfl⟩
    exfalso
    obtain ⟨hall, _⟩ := parseGo_ok_sound doc none none none none none m hp
    rw [(hall (k, v) hmem).2] at hkind
    cases hkind
  · intro doc hnd hall hpresent
    have hcomp := parseGo_ok_complete doc none none none none none hnd hall
      (iff_of_true rfl (hpresent _ (by simp [manifestKeys])))
      (iff_of_true rfl (hpresent _ (by simp [manifestKeys])))
      (iff_of_true rfl (hpresent _ (by simp [manifestKeys])))
      (iff_of_true rfl (hpresent _ (by simp [manifestKeys])))
      (iff_of_true rfl (hpresent _ (by simp [manifestKeys])))
    refine ⟨_, hcomp, ?_, ?_, ?_, ?_, ?_⟩ <;>
      [ (obtain ⟨v, hv, hvm⟩ := docLookup_mem (hpresent "title" (by simp [manifestKeys])));
        (obtain ⟨v, hv, hvm⟩ := docLookup_mem (hpresent "index-title" (by simp [manifestKeys])));
        (obtain ⟨v, hv, hvm⟩ := docLookup_mem (hpresent "description" (by simp [manifestKeys])));
        (obtain ⟨v, hv, hvm⟩ := docLookup_mem (hpresent "maintained-by" (by simp [manifestKeys])));
        (obtain ⟨v, hv, hvm⟩ := docLookup_mem (hpresent "requires-team" (by simp [manifestKeys])))] <;>
      (have hK := (hall _ hvm).2
       rcases v with s | bv | _ <;>
         simp_all [fieldKindOK, MValue.isStr, MValue.isBool, valStr, valBool])
  · intro pfx entries b t doc m hb ht hdoc hm
    obtain ⟨t2, doc2, m2, ps, p, rest, e1, e2, e3, _, _, hbeq⟩ := Blog.load_ok_elim hb
    rw [ht] at e1
    cases e1
    rw [hdoc] at e2
    cases e2
    rw [hm] at e3
    cases e3
    subst hbeq
    exact ⟨rfl, rfl, rfl, rfl⟩

/-- Witness for C4: a document missing `title` fails; `goodDoc` parses with
every field copied verbatim; the loaded concrete blog carries the manifest's
`title`. -/
theorem C4_manifest_strictness_witness :
    (∃ e, Manifest.parse
        [("index-title", MValue.str "IT"), ("description", MValue.str "D"),
         ("maintained-by", MValue.str "M"), ("requires-team", MValue.bool true)] =
      .error e) ∧
    (∃ m, Manifest.parse goodDoc = .ok m ∧
        docLookup goodDoc "title" = some (.str m.title) ∧
        docLookup goodDoc "index-title" = some (.str m.index_title) ∧
        docLookup goodDoc "description" = some (.str m.description) ∧
        docLookup goodDoc "maintained-by" = some (.str m.maintained_by) ∧
        docLookup goodDoc "requires-team" = some (.bool m.requires_team)) ∧
    c2Blog.title = "T" :=
  ⟨C4_manifest_strictness.1 _ "title" (by decide) (by decide),
   C4_manifest_strictness.2.2.2.1 goodDoc (by decide) (by decide) (by decide),
   (C4_manifest_strictness.2.2.2.2 [] c2Entries c2Blog manifestFileText goodDoc
      { title := "T", index_title := "IT", description := "D", maintained_by := "M",
        requires_team := false }
      c2_load rfl rfl goodDoc_parse).1⟩

lemma badDoc_parse : Manifest.parse [("title", MValue.str "T")] = .error .schemaError := rfl

lemma relPath_base : relPath ["base"] ["base"] = [] := rfl

lemma relPath_a : relPath ["base"] ["base", "a"] = ["a"] := rfl

lemma relPath_b : relPath ["base"] ["base", "b"] = ["b"] := rfl

lemma relPath_foobar : relPath ["base"] ["base", "foo", "bar"] = ["foo", "bar"] := rfl

lemma dirB_load (pfx : FsPath) : Blog.load pfx
    [FsEntry.file "blog.yml" manifestFileText,
     FsEntry.file "q1.md" (postFileText "b1" 2023)] = .ok
    { title := "T", index_title := "IT", description := "D", maintained_by := "M",
      pfx := pfx, posts := [{ url := "b1", year := 2023, show_year := true }] } := by
  simp [Blog.load, readFileNamed, MANIFEST_FILE, manifestFileText, postFileText,
    goodDoc_parse, collectPosts, rustExtension, POSTS_EXT, sortPostsDescending, showYearRest]

lemma badDir_load (pfx : FsPath) : Blog.load pfx
    [FsEntry.file "blog.yml" badManifestFileText,
     FsEntry.file "x.md" (postFileText "x1" 2020)] = .error .schemaError := by
  simp [Blog.load, readFileNamed, MANIFEST_FILE, badManifestFileText, badDoc_parse]

lemma dirA_sort : sortPostsDescending
    [{ url := "a1", year := 2024, show_year := false },
     { url := "a2", year := 2024, show_year := false }] =
    [{ url := "a2", year := 2024, show_year := false },
     { url := "a1", year := 2024, show_year := false }] := by
  rw [sortPostsDescending_of_sorted]
  · rfl
  · simp [List.pairwise_cons, postLeUrl_eval]
    decide

lemma dirA_load (pfx : FsPath) : Blog.load pfx
    [FsEntry.file "blog.yml" manifestFileText,
     FsEntry.file "p1.md" (postFileText "a1" 2024),
     FsEntry.file "p2.md" (postFileText "a2" 2024),
     FsEntry.file "notes.txt" (postFileText "zz" 0)] = .ok
    { title := "T", index_title := "IT", description := "D", maintained_by := "M",
      pfx := pfx,
      posts := [{ url := "a2", year := 2024, show_year := true },
                { url := "a1", year := 2024, show_year := false }] } := by
  simp [Blog.load, readFileNamed, MANIFEST_FILE, manifestFileText, postFileText,
    goodDoc_parse, collectPosts, rustExtension, POSTS_EXT, dirA_sort, showYearRest]

lemma c5Root_load : Blog.load []
    [FsEntry.file "blog.yml" manifestFileText,
     FsEntry.file "r.md" (postFileText "r1" 2024),
     FsEntry.dir "foo" [FsEntry.dir "bar"
       [FsEntry.file "blog.yml" manifestFileText,
        FsEntry.file "q1.md" (postFileText "b1" 2023)]]] = .ok
    { title := "T", index_title := "IT", description := "D", maintained_by := "M",
      pfx := [], posts := [{ url := "r1", year := 2024, show_year := true }] } := by
  simp [Blog.load, readFileNamed, MANIFEST_FILE, manifestFileText, postFileText,
    goodDoc_parse, collectPosts, rustExtension, POSTS_EXT, sortPostsDescending, showYearRest]

lemma c5_load : load ["base"] c5Fs = .ok
    [ { title := "T", index_title := "IT", description := "D", maintained_by := "M",
        pfx := [], posts := [{ url := "r1", year := 2024, show_year := true }] },
      { title := "T", index_title := "IT", description := "D", maintained_by := "M",
        pfx := ["foo", "bar"],
        posts := [{ url := "b1", year := 2023, show_year := true }] } ] := by
  simp only [c5Fs, dirB]
  simp only [load, loadRecDir, MANIFEST_FILE]
  simp only [List.cons_append, List.nil_append, relPath_base, relPath_foobar]
  simp only [c5Root_load, dirB_load]
  try simp

lemma c6_load : load ["base"] c6Fs = .error .schemaError := by
  simp only [c6Fs, badDir, dirB]
  simp only [load, loadRecDir, MANIFEST_FILE]
  simp only [List.cons_append, List.nil_append, relPath_a, relPath_b]
  simp only [badDir_load, dirB_load]
  try simp

lemma c6b_load : load ["base"] [FsEntry.dir "b" dirB] = .ok
    [ { title := "T", index_title := "IT", description := "D", maintained_by := "M",
        pfx := ["b"], posts := [{ url := "b1", year := 2023, show_year := true }] } ] := by
  simp only [dirB]
  simp only [load, loadRecDir, MANIFEST_FILE]
  simp only [List.cons_append, List.nil_append, relPath_b]
  simp only [dirB_load]
  try simp

lemma c8_load : load ["base"] c8Fs = .ok
    [ { title := "T", index_title := "IT", description := "D", maintained_by := "M",
        pfx := ["a"],
        posts := [{ url := "a2", year := 2024, show_year := true },
                  { url := "a1", year := 2024, show_year := false }] },
      { title := "T", index_title := "IT", description := "D", maintained_by := "M",
        pfx := ["b"], posts := [{ url := "b1", year := 2023, show_year := true }] } ] := by
  simp only [c8Fs, dirA, dirB]
  simp only [load, loadRecDir, MANIFEST_FILE]
  simp only [List.cons_append, List.nil_append, relPath_a, relPath_b]
  simp only [dirA_load, dirB_load]
  try simp

/-- C5: a discovered blog's prefix is its directory's path relative to the
base (empty for the base itself), and serialization appends a trailing `/`
exactly when the prefix is non-empty: the root blog serializes as `""` and a
blog at `base/foo/bar` as `"foo/bar/"`. -/
theorem C5_prefix_serialization :
    (∀ base : FsPath, relPath base base = []) ∧
    (∀ base rel : FsPath, relPath base (base ++ rel) = rel) ∧
    (addTrailingSlash [] = "") ∧
    (∀ p : FsPath, pathToString p ≠ "" → addTrailingSlash p = pathToString p ++ "/") ∧
    ((load ["base"] c5Fs).map (fun bs => bs.map Blog.serializedPfx) =
      .ok ["", "foo/bar/"]) := by
  refine ⟨?_, ?_, rfl, ?_, ?_⟩
  · intro base
    have h : base.isPrefixOf base = true :=
      List.isPrefixOf_iff_prefix.mpr (List.prefix_refl base)
    simp [relPath, h]
  · intro base rel
    have h : base.isPrefixOf (base ++ rel) = true :=
      List.isPrefixOf_iff_prefix.mpr (List.prefix_append base rel)
    simp [relPath, h, List.drop_left]
  · intro p h
    simp only [addTrailingSlash]
    rw [if_neg]
    simp [String.isEmpty_iff, h]
  · rw [c5_load]
    rfl

/-- Witness for C5: concrete relative-path and serialization facts. -/
theorem C5_prefix_serialization_witness :
    relPath ["x"] ["x"] = [] ∧ addTrailingSlash ["foo", "bar"] = "foo/bar/" :=
  ⟨C5_prefix_serialization.1 ["x"], by
    rw [C5_prefix_serialization.2.2.2.1 ["foo", "bar"] (by decide)]
    rfl⟩

/-- C6: the first error anywhere in the recursive walk aborts the whole load
with that error and no partial blog list: an error on a prefix of a listing
is the result on the whole listing, a malformed manifest in directory `a`
fails the entire top-level load even though sibling `b` is valid, and `b`
alone loads fine. -/
theorem C6_fatal_on_first_error :
    (∀ (base current : FsPath) (all l1 l2 : List FsEntry) (e : LoadError),
        loadRecDir base current all l1 = .error e →
        loadRecDir base current all (l1 ++ l2) = .error e) ∧
    (load ["base"] c6Fs = .error .schemaError) ∧
    ((load ["base"] [FsEntry.dir "b" dirB]).isOk = true) := by
  refine ⟨?_, c6_load, by rw [c6b_load]; rfl⟩
  intro base current all l1 l2 e h
  induction l1 with
  | nil => simp [loadRecDir] at h
  | cons e0 rest ih =>
    cases e0 with
    | dir n sub =>
      simp only [loadRecDir, List.cons_append] at h ⊢
      rcases h1 : loadRecDir base (current ++ [n]) sub sub with e2 | bs1
      · rw [h1] at h
        exact h
      · rw [h1] at h
        rcases h2 : loadRecDir base current all rest with e3 | bs2
        · rw [h2] at h
          cases h
          rw [ih h2]
        · rw [h2] at h
          cases h
    | dirUnreadable n =>
      simpa only [loadRecDir, List.cons_append] using h
    | broken n =>
      simpa only [loadRecDir, List.cons_append] using h
    | special n =>
      simp only [loadRecDir, List.cons_append] at h ⊢
      exact ih h
    | file n t =>
      simp only [loadRecDir, List.cons_append] at h ⊢
      by_cases hn : n = MANIFEST_FILE
      · rw [if_pos hn] at h ⊢
        rcases h1 : Blog.load (relPath base current) all with e2 | b
        · rw [h1] at h
          exact h
        · rw [h1] at h
          rcases h2 : loadRecDir base current all rest with e3 | bs2
          · rw [h2] at h
            cases h
            rw [ih h2]
          · rw [h2] at h
            cases h
      · rw [if_neg hn] at h ⊢
        exact ih h

/-- Witness for C6: the error-on-a-prefix rule applied to a concrete broken
listing. -/
theorem C6_fatal_on_first_error_witness :
    loadRecDir ["base"] ["base"] [] ([FsEntry.broken "z"] ++ [FsEntry.special "s"]) =
      .error .ioError :=
  C6_fatal_on_first_error.1 ["base"] ["base"] [] [FsEntry.broken "z"]
    [FsEntry.special "s"] .ioError (by simp [loadRecDir])

/-- C7: the post-collection step hands exactly the regular `md`-extension
files, in order, to the Post Loader (when every entry's metadata is
readable), and the manifest file itself is not one of them since its
extension is `yml`. -/
theorem C7_exactly_md_files_loaded :
    (∀ entries : List FsEntry,
        (∀ n, FsEntry.broken n ∉ entries) →
        collectPosts entries = specRunPostLoader (specMdFiles entries)) ∧
    rustExtension MANIFEST_FILE ≠ some POSTS_EXT := by
  constructor
  · intro entries h
    induction entries with
    | nil => rfl
    | cons e0 rest ih =>
      have ih2 := ih (fun n hn => h n (List.mem_cons_of_mem _ hn))
      cases e0 with
      | file n t =>
        by_cases hext : rustExtension n = some POSTS_EXT
        · simp [collectPosts, specMdFiles, hext, ih2, specRunPostLoader]
        · simp [collectPosts, specMdFiles, hext, ih2]
      | dir n sub => simp [collectPosts, specMdFiles, ih2]
      | dirUnreadable n => simp [collectPosts, specMdFiles, ih2]
      | broken n => exact absurd (List.mem_cons_self (FsEntry.broken n) rest) (h n)
      | special n => simp [collectPosts, specMdFiles, ih2]
  · decide

/-- Witness for C7 at the concrete six-post directory. -/
theorem C7_exactly_md_files_loaded_witness :
    collectPosts c2Entries = specRunPostLoader (specMdFiles c2Entries) :=
  C7_exactly_md_files_loaded.1 c2Entries (by
    intro n hn
    simp [c2Entries] at hn)

/-- A successful walk returns exactly one `Blog` per `blog.yml` file found in
the tree, in traversal order. -/
theorem loadRecDir_ok_length (base current : FsPath) (all todo : List FsEntry)
    (bs : List Blog) (h : loadRecDir base current all todo = .ok bs) :
    bs.length = countManifests todo := by
  match todo with
  | [] =>
    simp only [loadRecDir] at h
    cases h
    simp [countManifests]
  | .dir n sub :: rest =>
    simp only [loadRecDir] at h
    rcases h1 : loadRecDir base (current ++ [n]) sub sub with e | bs1
    · simp [h1] at h
    simp only [h1] at h
    rcases h2 : loadRecDir base current all rest with e | bs2
    · simp [h2] at h
    simp only [h2] at h
    cases h
    have i1 := loadRecDir_ok_length base (current ++ [n]) sub sub bs1 h1
    have i2 := loadRecDir_ok_length base current all rest bs2 h2
    simp only [countManifests, List.length_append, i1, i2]
  | .dirUnreadable n :: rest => simp [loadRecDir] at h
  | .broken n :: rest => simp [loadRecDir] at h
  | .special n :: rest =>
    simp only [loadRecDir] at h
    have i2 := loadRecDir_ok_length base current all rest bs h
    simpa [countManifests] using i2
  | .file n t :: rest =>
    simp only [loadRecDir] at h
    by_cases hn : n = MANIFEST_FILE
    · rw [if_pos hn] at h
      rcases h1 : Blog.load (relPath base current) all with e | b
      · simp [h1] at h
      simp only [h1] at h
      rcases h2 : loadRecDir base current all rest with e | bs2
      · simp [h2] at h
      simp only [h2] at h
      cases h
      have i2 := loadRecDir_ok_length base current all rest bs2 h2
      simp only [countManifests, if_pos hn, List.length_cons, i2]
      omega
    · rw [if_neg hn] at h
      have i2 := loadRecDir_ok_length base current all rest bs h
      simp only [countManifests, if_neg hn, i2]
      omega
termination_by sizeOf todo
decreasing_by all_goals (simp; try omega)

/-- C8: the walker recognizes a directory as a blog root iff it directly
contains `blog.yml` — a successful walk yields exactly one `Blog` per such
file — and on a base with two independent blog directories (2 posts and
1 post) it yields exactly those two blogs with their own posts. -/
theorem C8_recursive_discovery :
    (∀ (base current : FsPath) (all todo : List FsEntry) (bs : List Blog),
        loadRecDir base current all todo = .ok bs → bs.length = countManifests todo) ∧
    ((load ["base"] c8Fs).map (fun bs => bs.map fun b => (b.pfx, b.posts.map Post.url)) =
      .ok [(["a"], ["a2", "a1"]), (["b"], ["b1"])]) :=
  ⟨fun base current all todo bs h => loadRecDir_ok_length base current all todo bs h,
   by rw [c8_load]; rfl⟩

/-- Witness for C8: the two-blog fixture gives exactly two blogs, one per
manifest file. -/
theorem C8_recursive_discovery_witness : (2 : Nat) = countManifests c8Fs := by
  have h := C8_recursive_discovery.1 ["base"] ["base"] c8Fs c8Fs _ c8_load
  simpa using h

/-- C10: when the walked directory's path does not have the base as a prefix,
`strip_prefix` fails and the walker silently uses the empty prefix, so blogs
found there are indistinguishable from root blogs: the walk from such a
`current` equals the walk taken at the base itself (when no subdirectory
changes the path further). -/
theorem C10_missing_prefix_fallback :
    (∀ base current : FsPath, ¬ base <+: current → relPath base current = []) ∧
    (∀ (base current : FsPath) (entries : List FsEntry),
        ¬ base <+: current →
        (∀ n sub, FsEntry.dir n sub ∉ entries) →
        loadRecDir base current entries entries = loadRecDir base base entries entries) := by
  have part1 : ∀ base current : FsPath, ¬ base <+: current → relPath base current = [] := by
    intro base current h
    simp [relPath, List.isPrefixOf_iff_prefix, h]
  refine ⟨part1, ?_⟩
  intro base current entries hpre hnodir
  have hrel : relPath base current = [] := part1 base current hpre
  have hrel2 : relPath base base = [] := by
    have h : base.isPrefixOf base = true :=
      List.isPrefixOf_iff_prefix.mpr (List.prefix_refl base)
    simp [relPath, h]
  suffices H : ∀ todo, (∀ n sub, FsEntry.dir n sub ∉ todo) →
      loadRecDir base current entries todo = loadRecDir base base entries todo from
    H entries hnodir
  intro todo hnd
  induction todo with
  | nil => simp [loadRecDir]
  | cons e0 rest ih =>
    have ih2 := ih (fun n sub hm => hnd n sub (List.mem_cons_of_mem _ hm))
    cases e0 with
    | dir n sub => exact absurd (List.mem_cons_self _ _) (hnd n sub)
    | dirUnreadable n => simp [loadRecDir]
    | broken n => simp [loadRecDir]
    | special n =>
      simp only [loadRecDir]
      exact ih2
    | file n t =>
      simp only [loadRecDir]
      by_cases hn : n = MANIFEST_FILE
      · rw [if_pos hn, if_pos hn, hrel, hrel2, ih2]
      · rw [if_neg hn, if_neg hn]
        exact ih2

/-- Witness for C10: a walk rooted outside the base uses the empty prefix. -/
theorem C10_missing_prefix_fallback_witness :
    relPath ["x"] ["y"] = [] ∧
    loadRecDir ["x"] ["y"] [FsEntry.special "s"] [FsEntry.special "s"] =
      loadRecDir ["x"] ["x"] [FsEntry.special "s"] [FsEntry.special "s"] := by
  have hpre : ¬ (["x"] : FsPath) <+: ["y"] := by
    intro hp
    obtain ⟨tl, htl⟩ := hp
    injection htl with h1 _
    exact absurd h1 (by decide)
  exact ⟨C10_missing_prefix_fallback.1 ["x"] ["y"] hpre,
    C10_missing_prefix_fallback.2 ["x"] ["y"] [FsEntry.special "s"] hpre
      (by intro n sub hm; simp at hm)⟩

lemma parseStep_requires_team_dup (b c : Bool) (t it d mb : Option String) :
    parseStep "requires-team" (.bool b) t it d mb (some c) = .error .schemaError := rfl

lemma parseFinish_setRT (t it d mb : Option String) (rt1 rt2 : Option Bool)
    (hiso : rt1.isSome = rt2.isSome) :
    (parseFinish t it d mb rt1).map stripRT = (parseFinish t it d mb rt2).map stripRT := by
  cases t <;> cases it <;> cases d <;> cases mb <;> cases rt1 <;> cases rt2 <;>
    simp_all [parseFinish, stripRT, Except.map]

lemma parseGo_setRT (b1 b2 : Bool) : ∀ (doc : List (String × MValue))
    (t it d mb : Option String) (rt1 rt2 : Option Bool),
    rt1.isSome = rt2.isSome →
    (parseGo (setRequiresTeam b1 doc) t it d mb rt1).map stripRT =
    (parseGo (setRequiresTeam b2 doc) t it d mb rt2).map stripRT := by
  intro doc
  induction doc with
  | nil =>
    intro t it d mb rt1 rt2 hiso
    simp only [setRequiresTeam, parseGo]
    exact parseFinish_setRT t it d mb rt1 rt2 hiso
  | cons p rest ih =>
    rintro t it d mb rt1 rt2 hiso
    obtain ⟨k, v⟩ := p
    simp only [setRequiresTeam, parseGo]
    by_cases hk : k = "requires-team"
    · subst hk
      rw [if_pos rfl, if_pos rfl]
      cases rt1 with
      | none =>
        have hrt2 : rt2 = none := by
          cases rt2
          · rfl
          · simp at hiso
        subst hrt2
        rw [parseStep_requires_team, parseStep_requires_team]
        exact ih t it d mb (some b1) (some b2) rfl
      | some c1 =>
        have hrt2 : ∃ c2, rt2 = some c2 := by
          cases rt2
          · simp at hiso
          · exact ⟨_, rfl⟩
        obtain ⟨c2, hrt2⟩ := hrt2
        subst hrt2
        rw [parseStep_requires_team_dup, parseStep_requires_team_dup]
    · rw [if_neg hk, if_neg hk]
      delta parseStep
      by_cases hky0 : k = "title"
      · rw [if_pos hky0, if_pos hky0]
        cases t with
        | none =>
          cases v with
          | str s => exact ih (some s) it d mb rt1 rt2 hiso
          | bool c => rfl
          | other => rfl
        | some s0 => cases v <;> rfl
      rw [if_neg hky0, if_neg hky0]
      by_cases hky1 : k = "index-title"
      · rw [if_pos hky1, if_pos hky1]
        cases it with
        | none =>
          cases v with
          | str s => exact ih t (some s) d mb rt1 rt2 hiso
          | bool c => rfl
          | other => rfl
        | some s0 => cases v <;> rfl
      rw [if_neg hky1, if_neg hky1]
      by_cases hky2 : k = "description"
      · rw [if_pos hky2, if_pos hky2]
        cases d with
        | none =>
          cases v with
          | str s => exact ih t it (some s) mb rt1 rt2 hiso
          | bool c => rfl
          | other => rfl
        | some s0 => cases v <;> rfl
      rw [if_neg hky2, if_neg hky2]
      by_cases hky3 : k = "maintained-by"
      · rw [if_pos hky3, if_pos hky3]
        cases mb with
        | none =>
          cases v with
          | str s => exact ih t it d (some s) rt1 rt2 hiso
          | bool c => rfl
          | other => rfl
        | some s0 => cases v <;> rfl
      rw [if_neg hky3, if_neg hky3]
      rw [if_neg hk, if_neg hk]

/-- Replacing `requires-team` in manifests does not touch the Post Loader's
inputs, so post collection is unchanged. -/
lemma collectPosts_setRT (b : Bool) (entries : List FsEntry) :
    collectPosts (entries.map (setEntryRT b)) = collectPosts entries := by
  induction entries with
  | nil => rfl
  | cons e0 rest ih =>
    cases e0 with
    | file n t =>
      by_cases hn : n = MANIFEST_FILE
      · simp [setEntryRT, hn, collectPosts, ih]
      · simp [setEntryRT, hn, collectPosts, ih]
    | dir n sub => simp [setEntryRT, collectPosts, ih]
    | dirUnreadable n => simp [setEntryRT, collectPosts, ih]
    | broken n => simp [setEntryRT, collectPosts]
    | special n => simp [setEntryRT, collectPosts, ih]

/-- Reading the manifest file after the replacement yields the original text
with `setRequiresTeam` applied to its document. -/
lemma readFileNamed_setRT (b : Bool) (entries : List FsEntry) :
    readFileNamed MANIFEST_FILE (entries.map (setEntryRT b)) =
      (readFileNamed MANIFEST_FILE entries).map
        (fun t => { t with asManifestDoc := t.asManifestDoc.map (setRequiresTeam b) }) := by
  induction entries with
  | nil => rfl
  | cons e0 rest ih =>
    cases e0 with
    | file n t =>
      by_cases hn : n = MANIFEST_FILE
      · simp [setEntryRT, hn, readFileNamed, Except.map]
      · simp [setEntryRT, hn, readFileNamed, ih]
    | dir n sub =>
      by_cases hn : n = MANIFEST_FILE
      · simp [setEntryRT, hn, readFileNamed, Except.map]
      · simp [setEntryRT, hn, readFileNamed, ih]
    | dirUnreadable n =>
      by_cases hn : n = MANIFEST_FILE
      · simp [setEntryRT, hn, readFileNamed, Except.map]
      · simp [setEntryRT, hn, readFileNamed, ih]
    | broken n =>
      by_cases hn : n = MANIFEST_FILE
      · simp [setEntryRT, hn, readFileNamed, Except.map]
      · simp [setEntryRT, hn, readFileNamed, ih]
    | special n =>
      by_cases hn : n = MANIFEST_FILE
      · simp [setEntryRT, hn, readFileNamed, Except.map]
      · simp [setEntryRT, hn, readFileNamed, ih]

/-- C9: two manifest documents that differ only in the (boolean) value of the
`requires-team` field produce identical `Blog` values from `Blog::load` on
otherwise identical inputs: `requires_team` is parsed and type-checked but
influences neither the constructed `Blog` nor its serialized output. -/
theorem C9_requires_team_no_influence (pfx : FsPath) (entries : List FsEntry)
    (b1 b2 : Bool) :
    Blog.load pfx (entries.map (setEntryRT b1)) =
      Blog.load pfx (entries.map (setEntryRT b2)) := by
  simp only [Blog.load]
  rw [readFileNamed_setRT, readFileNamed_setRT, collectPosts_setRT, collectPosts_setRT]
  rcases h : readFileNamed MANIFEST_FILE entries with e | t
  · rfl
  simp only [Except.map]
  rcases hd : t.asManifestDoc with u | doc
  · rfl
  simp only [Except.map]
  have hp : (Manifest.parse (setRequiresTeam b1 doc)).map stripRT =
      (Manifest.parse (setRequiresTeam b2 doc)).map stripRT :=
    parseGo_setRT b1 b2 doc none none none none none none rfl
  rcases hp1 : Manifest.parse (setRequiresTeam b1 doc) with e1 | m1 <;>
    rcases hp2 : Manifest.parse (setRequiresTeam b2 doc) with e2 | m2 <;>
    rw [hp1, hp2] at hp <;> simp only [Except.map] at hp
  · cases hp
    rfl
  · cases hp
  · cases hp
  · obtain ⟨t1, i1, d1, mb1, r1⟩ := m1
    obtain ⟨t2, i2, d2, mb2, r2⟩ := m2
    simp only [stripRT, Except.ok.injEq, Manifest.mk.injEq, and_true] at hp
    obtain ⟨e1, e2, e3, e4⟩ := hp
    subst e1
    subst e2
    subst e3
    subst e4
    rfl
